import Mathlib

/-!
Verification of `daily_news_bot.py`: a shallow embedding of the news-collection,
formatting and dispatch logic of the bot, together with theorems settling the
specification's claims about it.

Modelling conventions:
* Python strings are Lean `String`s; Python indexes/slices strings by code
  point, which matches `String.data : List Char`.  `len(s)` is `s.length`
  (= `s.data.length`), `s[:n]` is `String.mk (s.data.take n)`, and
  `s.startswith(p)` is `str_startswith s p` below.
* A BeautifulSoup element selected by a news-category extractor is modelled as
  a `Candidate` carrying its stripped display text (`get_text(strip=True)`)
  and its `href` attribute (`item.get('href', '')`, so a missing attribute is
  the empty string).
* A fetch that fails (timeout or error) makes `fetch_page` return `None`; the
  extractors guard with `if html:`, so a failed fetch is modelled as the
  `Option.none` page input and yields the empty list.
* Side effects of the dispatch phase (`asyncio.sleep`, `bot.send_message`) are
  modelled as a trace of `Action`s; the outcome of each attempted send is an
  input to the model.
-/

namespace DailyNewsBot

/-- Python `s.startswith(pre)` on code points. -/
def str_startswith (s pre : String) : Bool :=
  pre.data.isPrefixOf s.data

/-- A candidate entry selected from a page: display text and `href` attribute
(`''` when absent, as in `item.get('href', '')`). -/
structure Candidate where
  text : String
  href : String
deriving Repr, DecidableEq

/-- One extracted news item: `{'rank': ..., 'title': ..., 'link': ...}`. -/
structure RankedItem where
  rank : Nat
  title : String
  link : String
deriving Repr, DecidableEq

/-- The title truncation applied by every news-category extractor:
`title[:60] + '...' if len(title) > 60 else title`. -/
def truncTitle (t : String) : String :=
  if 60 < t.length then String.mk (t.data.take 60) ++ "..." else t

/-- The loop shared by the five news-category extractors
(`for idx, item in enumerate(items[:10], 1): ... if keep: append(...)`):
enumerate the first ten candidates starting at 1, keep those satisfying the
category's check, and build each kept item from its enumeration index, its
truncated text and the category's link construction. -/
def extractNews (keep : Candidate → Bool) (mkLink : Candidate → String)
    (cands : List Candidate) : List RankedItem :=
  (List.enumFrom 1 (cands.take 10)).filterMap fun p =>
    if keep p.2 then
      some { rank := p.1, title := truncTitle p.2.text, link := mkLink p.2 }
    else none

/-- Embeds `NewsCollector.get_naver_economy_news`: candidates are the
`.sa_text_title` elements; an item is kept `if title and link`, the link is the
raw `href`. A failed fetch (`html is None`) yields `[]`. -/
def get_naver_economy_news (page : Option (List Candidate)) : List RankedItem :=
  match page with
  | none => []
  | some headlines =>
      extractNews (fun c => c.text != "" && c.href != "") (fun c => c.href) headlines

/-- Embeds `NewsCollector.get_stock_news`: candidates are the
`.articleSubject a` elements; the link is `"https://finance.naver.com" + href`;
an item is kept `if title`. -/
def get_stock_news (page : Option (List Candidate)) : List RankedItem :=
  match page with
  | none => []
  | some items =>
      extractNews (fun c => c.text != "")
        (fun c => "https://finance.naver.com" ++ c.href) items

/-- Embeds `NewsCollector.get_world_stock_news`: candidates are the
`.news_list li a` elements; a link not starting with `http` is prefixed with
`"https://finance.naver.com"`; an item is kept `if title`. -/
def get_world_stock_news (page : Option (List Candidate)) : List RankedItem :=
  match page with
  | none => []
  | some items =>
      extractNews (fun c => c.text != "")
        (fun c =>
          if str_startswith c.href "http" then c.href
          else "https://finance.naver.com" ++ c.href) items

/-- Embeds `NewsCollector.get_commodity_news`: candidates are the `.news_tit`
elements; the link is the raw `href`; an item is kept `if title`. -/
def get_commodity_news (page : Option (List Candidate)) : List RankedItem :=
  match page with
  | none => []
  | some items =>
      extractNews (fun c => c.text != "") (fun c => c.href) items

/-- Embeds `NewsCollector.get_crypto_news`: same shape as the commodity
extractor (candidates `.news_tit`, raw `href` link, kept `if title`). -/
def get_crypto_news (page : Option (List Candidate)) : List RankedItem :=
  match page with
  | none => []
  | some items =>
      extractNews (fun c => c.text != "") (fun c => c.href) items

/-- The domestic index page as seen by `get_market_indices`: the stripped text
of `select_one('#KOSPI_now')` and `select_one('#KOSDAQ_now')`, `none` when the
selector matches nothing. -/
structure DomesticPage where
  kospiNow : Option String
  kosdaqNow : Option String
deriving Repr, DecidableEq

/-- One `.data_lst tr` row of the world-index page: the stripped texts of
`select_one('.name')` and `select_one('.point')`, `none` when absent. -/
structure WorldRow where
  name : Option String
  point : Option String
deriving Repr, DecidableEq

/-- Python dict assignment `d[k] = v` on an insertion-ordered mapping: update
in place when the key exists, append otherwise. -/
def dictInsert (d : List (String × String)) (k v : String) : List (String × String) :=
  if d.any (fun p => p.1 == k) then
    d.map fun p => if p.1 == k then (k, v) else p
  else d ++ [(k, v)]

/-- The body of the world-index row loop: a row with both a name and a point
is stored under its name, any other row is skipped. -/
def worldRowStep (ind : List (String × String)) (row : WorldRow) : List (String × String) :=
  match row.name, row.point with
  | some n, some v => dictInsert ind n v
  | _, _ => ind

/-- Embeds `NewsCollector.get_market_indices`: start from an empty dict, add
`KOSPI`/`KOSDAQ` from the domestic page when present, then add the first five
world rows that have both a name and a point.  Either page being `none` models
that fetch failing (its `try` block then contributes nothing). -/
def get_market_indices (domesticPage : Option DomesticPage)
    (worldPage : Option (List WorldRow)) : List (String × String) :=
  let indices : List (String × String) := []
  let indices := match domesticPage with
    | none => indices
    | some page =>
        let indices := match page.kospiNow with
          | some v => dictInsert indices "KOSPI" v
          | none => indices
        match page.kosdaqNow with
        | some v => dictInsert indices "KOSDAQ" v
        | none => indices
  match worldPage with
  | none => indices
  | some rows => (rows.take 5).foldl worldRowStep indices

/-- The five news categories, in the order they are declared in the bot. -/
inductive NewsCategory where
  | economy
  | stock
  | world_stock
  | commodity
  | crypto
deriving Repr, DecidableEq

/-- The six keys of the dict returned by `collect_all_news`. -/
inductive CategoryKey where
  | economy
  | stock
  | world_stock
  | commodity
  | crypto
  | indices
deriving Repr, DecidableEq

/-- The dict returned by `collect_all_news`, with its six fixed keys. -/
structure CollectionResult where
  economy : List RankedItem
  stock : List RankedItem
  world_stock : List RankedItem
  commodity : List RankedItem
  crypto : List RankedItem
  indices : List (String × String)
deriving Repr, DecidableEq

/-- `news_data.get(key, [])` for the five news categories. -/
def CollectionResult.newsOf (r : CollectionResult) : NewsCategory → List RankedItem
  | .economy => r.economy
  | .stock => r.stock
  | .world_stock => r.world_stock
  | .commodity => r.commodity
  | .crypto => r.crypto

/-- A value stored under one of the six keys: a ranked-item list for the five
news categories, a name-to-value mapping for `indices`. -/
inductive CatValue where
  | news (items : List RankedItem)
  | idx (quotes : List (String × String))
deriving Repr, DecidableEq

/-- Lookup of one of the six keys in a `CollectionResult`; total because the
dict literal in `collect_all_news` always has all six keys. -/
def CollectionResult.get (r : CollectionResult) : CategoryKey → CatValue
  | .economy => .news r.economy
  | .stock => .news r.stock
  | .world_stock => .news r.world_stock
  | .commodity => .news r.commodity
  | .crypto => .news r.crypto
  | .indices => .idx r.indices

/-- The empty value a failed category is mapped to: `[]` for news, `{}` for
indices. -/
def CatValue.emptyFor : CategoryKey → CatValue
  | .indices => .idx []
  | _ => .news []

/-- The six settled results of `asyncio.gather(..., return_exceptions=True)`:
for each task either its returned value (`Except.ok`) or the exception it
raised (`Except.error`). -/
structure TaskOutcomes where
  economy : Except Unit (List RankedItem)
  stock : Except Unit (List RankedItem)
  world_stock : Except Unit (List RankedItem)
  commodity : Except Unit (List RankedItem)
  crypto : Except Unit (List RankedItem)
  indices : Except Unit (List (String × String))

/-- The outcome of the task owning one key, with the payload injected into
`CatValue` so all six are comparable. -/
def TaskOutcomes.outcomeAt (o : TaskOutcomes) : CategoryKey → Except Unit CatValue
  | .economy => o.economy.map CatValue.news
  | .stock => o.stock.map CatValue.news
  | .world_stock => o.world_stock.map CatValue.news
  | .commodity => o.commodity.map CatValue.news
  | .crypto => o.crypto.map CatValue.news
  | .indices => o.indices.map CatValue.idx

/-- Embeds `NewsCollector.collect_all_news` from the gathered outcomes on:
`results[i] if not isinstance(results[i], Exception) else []` (resp. `{}` for
indices), assembled into the six-key dict. -/
def collect_all_news (o : TaskOutcomes) : CollectionResult where
  economy := match o.economy with | .ok l => l | .error _ => []
  stock := match o.stock with | .ok l => l | .error _ => []
  world_stock := match o.world_stock with | .ok l => l | .error _ => []
  commodity := match o.commodity with | .ok l => l | .error _ => []
  crypto := match o.crypto with | .ok l => l | .error _ => []
  indices := match o.indices with | .ok m => m | .error _ => []

/-- The five summary blocks' keys and titles, in declared order
(`categories` in `format_news_message`). -/
def summaryCategories : List (NewsCategory × String) :=
  [(.economy, "💰 경제 뉴스 TOP5"),
   (.stock, "📈 국내 주식 뉴스 TOP5"),
   (.world_stock, "🌍 해외 주식 뉴스 TOP5"),
   (.commodity, "🛢️ 원자재 뉴스 TOP5"),
   (.crypto, "₿ 암호화폐 뉴스 TOP5")]

/-- Embeds `TelegramNewsBot.format_news_message`; `today` is the formatted
run date (`datetime.now().strftime(...)`), passed as a parameter to keep the
function pure. -/
def format_news_message (today : String) (news_data : CollectionResult) : String :=
  let message := "\n📰 <b>일일 경제 뉴스 TOP10</b>\n📅 " ++ today
    ++ "\n\n━━━━━━━━━━━━━━━━━━━━━━\n\n"
  let message :=
    if news_data.indices.isEmpty then message
    else
      (news_data.indices.foldl
        (fun m p => m ++ "  • " ++ p.1 ++ ": " ++ p.2 ++ "\n")
        (message ++ "📊 <b>주요 시장 지수</b>\n"))
      ++ "\n━━━━━━━━━━━━━━━━━━━━━━\n\n"
  let message := summaryCategories.foldl
    (fun m kt =>
      let news_list := news_data.newsOf kt.1
      if news_list.isEmpty then m
      else
        ((news_list.take 5).foldl
          (fun m news => m ++ toString news.rank ++ ". " ++ news.title ++ "\n")
          (m ++ "<b>" ++ kt.2 ++ "</b>\n\n"))
        ++ "\n")
    message
  message ++ "━━━━━━━━━━━━━━━━━━━━━━\n🤖 Powered by GitHub Actions\n"

/-- Embeds `TelegramNewsBot.format_detailed_message`: `None` when the
category's list is empty, otherwise a titled block with one hyperlinked line
per item of the first ten. -/
def format_detailed_message (news_data : CollectionResult) (category : NewsCategory)
    (title : String) : Option String :=
  let news_list := news_data.newsOf category
  if news_list.isEmpty then none
  else
    some ((news_list.take 10).foldl
      (fun m news => m ++ toString news.rank ++ ". <a href=\x27" ++ news.link
        ++ "\x27>" ++ news.title ++ "</a>\n\n")
      ("<b>" ++ title ++ "</b>\n\n"))

/-- The five detail messages' keys and titles, in declared order
(`categories` in `send_news`). -/
def detailCategories : List (NewsCategory × String) :=
  [(.economy, "💰 경제 뉴스 상세"),
   (.stock, "📈 국내 주식 뉴스 상세"),
   (.world_stock, "🌍 해외 주식 뉴스 상세"),
   (.commodity, "🛢️ 원자재 뉴스 상세"),
   (.crypto, "₿ 암호화폐 뉴스 상세")]

/-- An observable effect of the dispatch phase: the one-second rate-limit
sleep, or an attempted `bot.send_message` of a body together with whether the
attempt succeeded. -/
inductive Action where
  | sleep
  | sendA (body : String) (ok : Bool)
deriving Repr, DecidableEq

/-- Embeds `TelegramNewsBot.send_news` (dispatch only; collection is taken as
the `news_data` input).  `sumOk`/`detailOk` say whether each attempted send
succeeds.  The summary is sent first; its failure is re-raised
(`Except.error`) with no detail attempt made.  Otherwise, for each declared
category with a non-`None` detail message, the bot sleeps and attempts the
send; a detail failure is only logged (recorded in the trace) and the loop
continues. -/
def send_news (sumOk : Bool) (detailOk : NewsCategory → Bool) (today : String)
    (news_data : CollectionResult) : Except (List Action) (List Action) :=
  let summary := format_news_message today news_data
  if sumOk then
    Except.ok (detailCategories.foldl
      (fun trace kt =>
        match format_detailed_message news_data kt.1 kt.2 with
        | some m => trace ++ [Action.sleep, Action.sendA m (detailOk kt.1)]
        | none => trace)
      [Action.sendA summary true])
  else Except.error [Action.sendA summary false]

/-- The bodies of the sends attempted in a trace, in order, disregarding
outcomes. -/
def attemptedBodies (trace : List Action) : List String :=
  trace.filterMap fun a =>
    match a with
    | .sendA body _ => some body
    | .sleep => none

/-! ### String helper lemmas -/

theorem strExt {a b : String} (h : a.data = b.data) : a = b := by
  cases a
  cases b
  exact congrArg String.mk h

theorem str_append_assoc (a b c : String) : a ++ b ++ c = a ++ (b ++ c) := by
  apply strExt
  simp [String.data_append, List.append_assoc]

theorem str_empty_append (a : String) : "" ++ a = a := by
  apply strExt
  simp [String.data_append]

theorem str_append_empty (a : String) : a ++ "" = a := by
  apply strExt
  simp [String.data_append]

theorem strJoin_nil : String.join [] = "" := rfl

theorem strFoldl_acc (l : List String) :
    ∀ a : String, l.foldl (fun r s => r ++ s) a = a ++ String.join l := by
  induction l with
  | nil => intro a; simp [List.foldl, strJoin_nil, str_append_empty]
  | cons s l ih =>
      intro a
      show l.foldl _ (a ++ s) = a ++ String.join (s :: l)
      rw [ih (a ++ s), str_append_assoc]
      congr 1
      show s ++ String.join l = String.join (s :: l)
      have : String.join (s :: l) = l.foldl (fun r t => r ++ t) ("" ++ s) := rfl
      rw [this, str_empty_append, ih s]

theorem strJoin_cons (s : String) (l : List String) :
    String.join (s :: l) = s ++ String.join l := by
  have : String.join (s :: l) = l.foldl (fun r t => r ++ t) ("" ++ s) := rfl
  rw [this, str_empty_append, strFoldl_acc]

/-- A left fold that appends `f x` for each element equals the start string
followed by the join of the mapped list. -/
theorem strFoldl_map {α : Type} (f : α → String) (l : List α) :
    ∀ a : String, l.foldl (fun m x => m ++ f x) a = a ++ String.join (l.map f) := by
  induction l with
  | nil => intro a; simp [List.foldl, strJoin_nil, str_append_empty]
  | cons x l ih =>
      intro a
      show l.foldl _ (a ++ f x) = a ++ String.join ((x :: l).map f)
      rw [ih (a ++ f x), List.map_cons, strJoin_cons, str_append_assoc]

theorem str_ne_empty_iff (s : String) : s ≠ "" ↔ s.data ≠ [] := by
  constructor
  · intro h hd
    exact h (strExt hd)
  · intro h he
    exact h (by rw [he])

/-- Appending to a fixed prefix keeps that prefix: used for the base-URL
prefixing in the stock and world-stock extractors. -/
theorem str_startswith_append (pre base s : String)
    (h : pre.data <+: base.data) : str_startswith (base ++ s) pre = true := by
  unfold str_startswith
  rw [List.isPrefixOf_iff_prefix, String.data_append]
  exact h.trans (List.prefix_append _ _)

/-! ### List fold helper -/

theorem listFoldl_append {α β : Type} (g : α → List β) (l : List α) :
    ∀ a : List β, l.foldl (fun acc x => acc ++ g x) a = a ++ (l.map g).flatten := by
  induction l with
  | nil => intro a; simp
  | cons x l ih =>
      intro a
      show l.foldl _ (a ++ g x) = a ++ ((x :: l).map g).flatten
      rw [ih (a ++ g x)]
      simp [List.append_assoc]

/-! ### The generic extraction loop, as a recursion amenable to induction -/

/-- Recursive form of the shared extraction loop: `n` is the enumeration
counter. -/
def extractGo (keep : Candidate → Bool) (mkLink : Candidate → String) :
    Nat → List Candidate → List RankedItem
  | _, [] => []
  | n, c :: cs =>
      if keep c then
        { rank := n, title := truncTitle c.text, link := mkLink c }
          :: extractGo keep mkLink (n + 1) cs
      else extractGo keep mkLink (n + 1) cs

theorem enumFrom_filterMap_eq_go (keep : Candidate → Bool) (mkLink : Candidate → String)
    (l : List Candidate) : ∀ n : Nat,
    ((List.enumFrom n l).filterMap fun p =>
      if keep p.2 then
        some { rank := p.1, title := truncTitle p.2.text, link := mkLink p.2 }
      else none) = extractGo keep mkLink n l := by
  induction l with
  | nil => intro n; rfl
  | cons c cs ih =>
      intro n
      show ((List.enumFrom n (c :: cs)).filterMap _) = extractGo keep mkLink n (c :: cs)
      rw [List.enumFrom]
      by_cases h : keep c
      · simp [List.filterMap_cons, h, extractGo, ih (n + 1)]
      · simp [List.filterMap_cons, h, extractGo, ih (n + 1)]

theorem extractNews_eq_go (keep : Candidate → Bool) (mkLink : Candidate → String)
    (cands : List Candidate) :
    extractNews keep mkLink cands = extractGo keep mkLink 1 (cands.take 10) := by
  unfold extractNews
  exact enumFrom_filterMap_eq_go keep mkLink (cands.take 10) 1

/-- Every item placed by the loop points back to the candidate at its rank's
position: its rank is in `[n, n + length)`, and its fields are built from
that candidate, which passed the keep check. -/
theorem extractGo_mem (keep : Candidate → Bool) (mkLink : Candidate → String)
    (l : List Candidate) : ∀ (n : Nat) (it : RankedItem),
    it ∈ extractGo keep mkLink n l →
    n ≤ it.rank ∧ it.rank < n + l.length ∧
      ∃ c, l[it.rank - n]? = some c ∧ keep c = true ∧
        it = { rank := it.rank, title := truncTitle c.text, link := mkLink c } := by
  induction l with
  | nil => intro n it h; exact absurd h (by simp [extractGo])
  | cons c cs ih =>
      intro n it h
      rw [extractGo] at h
      by_cases hk : keep c
      · rw [if_pos hk] at h
        rcases List.mem_cons.mp h with he | ht
        · refine ⟨by rw [he], by rw [he]; simp only [List.length_cons]; omega, c, ?_, hk, ?_⟩
          · have : it.rank - n = 0 := by rw [he]; simp
            rw [this]
            simp
          · rw [he]
        · rcases ih (n + 1) it ht with ⟨h1, h2, d, hd, hkd, hfields⟩
          refine ⟨by omega, by simp only [List.length_cons]; omega, d, ?_, hkd, hfields⟩
          have : it.rank - n = (it.rank - (n + 1)) + 1 := by omega
          rw [this]
          simpa using hd
      · rw [if_neg hk] at h
        rcases ih (n + 1) it h with ⟨h1, h2, d, hd, hkd, hfields⟩
        refine ⟨by omega, by simp only [List.length_cons]; omega, d, ?_, hkd, hfields⟩
        have : it.rank - n = (it.rank - (n + 1)) + 1 := by omega
        rw [this]
        simpa using hd

/-- A kept candidate at position `i` produces exactly the item with rank
`n + i`. -/
theorem extractGo_kept (keep : Candidate → Bool) (mkLink : Candidate → String)
    (l : List Candidate) : ∀ (n i : Nat) (c : Candidate),
    l[i]? = some c → keep c = true →
    ({ rank := n + i, title := truncTitle c.text, link := mkLink c } : RankedItem)
      ∈ extractGo keep mkLink n l := by
  induction l with
  | nil => intro n i c h; simp at h
  | cons d ds ih =>
      intro n i c h hk
      rw [extractGo]
      cases i with
      | zero =>
          simp at h
          subst h
          rw [if_pos hk]
          simp
      | succ j =>
          simp at h
          have hmem := ih (n + 1) j c h hk
          have harith : n + (j + 1) = (n + 1) + j := by omega
          by_cases hd : keep d
          · rw [if_pos hd]
            exact List.mem_cons_of_mem _ (by rw [harith]; exact hmem)
          · rw [if_neg hd]
            rw [harith]
            exact hmem

theorem extractGo_length (keep : Candidate → Bool) (mkLink : Candidate → String)
    (l : List Candidate) : ∀ n : Nat,
    (extractGo keep mkLink n l).length ≤ l.length := by
  induction l with
  | nil => intro n; simp [extractGo]
  | cons c cs ih =>
      intro n
      rw [extractGo]
      by_cases hk : keep c
      · rw [if_pos hk]
        simpa using ih (n + 1)
      · rw [if_neg hk]
        exact Nat.le_succ_of_le (ih (n + 1))

theorem extractGo_ranks_sorted (keep : Candidate → Bool) (mkLink : Candidate → String)
    (l : List Candidate) : ∀ n : Nat,
    (extractGo keep mkLink n l).Pairwise fun a b => a.rank < b.rank := by
  induction l with
  | nil => intro n; simp [extractGo]
  | cons c cs ih =>
      intro n
      rw [extractGo]
      by_cases hk : keep c
      · rw [if_pos hk]
        refine List.pairwise_cons.mpr ⟨?_, ih (n + 1)⟩
        intro it hit
        have := (extractGo_mem keep mkLink cs (n + 1) it hit).1
        exact Nat.lt_of_lt_of_le (Nat.lt_succ_self n) this
      · rw [if_neg hk]
        exact ih (n + 1)

/-- The item with rank `n + i` is in the loop's output iff the candidate at
position `i` exists and passes the keep check. -/
theorem extractGo_rank_mem_iff (keep : Candidate → Bool) (mkLink : Candidate → String)
    (l : List Candidate) (n i : Nat) :
    (∃ it ∈ extractGo keep mkLink n l, it.rank = n + i) ↔
      ∃ c, l[i]? = some c ∧ keep c = true := by
  constructor
  · rintro ⟨it, hit, hrank⟩
    rcases extractGo_mem keep mkLink l n it hit with ⟨_, _, c, hc, hkc, _⟩
    refine ⟨c, ?_, hkc⟩
    rw [hrank] at hc
    simpa using hc
  · rintro ⟨c, hc, hkc⟩
    exact ⟨_, extractGo_kept keep mkLink l n i c hc hkc, rfl⟩

/-- A non-empty title stays non-empty after truncation. -/
theorem truncTitle_ne_empty (t : String) (h : t ≠ "") : truncTitle t ≠ "" := by
  unfold truncTitle
  by_cases hl : 60 < t.length
  · rw [if_pos hl, str_ne_empty_iff, String.data_append]
    simp
  · rw [if_neg hl]
    exact h

/-- Every item an extractor emits is built from the candidate sitting at
position `rank - 1` of the unfiltered first-ten slice. -/
theorem extractNews_rank_source (keep : Candidate → Bool) (mkLink : Candidate → String)
    (page : List Candidate) (it : RankedItem) (h : it ∈ extractNews keep mkLink page) :
    ∃ c, (page.take 10)[it.rank - 1]? = some c ∧ keep c = true ∧
      it.title = truncTitle c.text ∧ it.link = mkLink c := by
  rw [extractNews_eq_go] at h
  rcases extractGo_mem keep mkLink (page.take 10) 1 it h with ⟨h1, h2, c, hc, hkc, hfields⟩
  exact ⟨c, hc, hkc, congrArg RankedItem.title hfields, congrArg RankedItem.link hfields⟩

/-- Rank `i + 1` occurs in an extractor's output iff the slice has a candidate
at position `i` that passes the keep check. -/
theorem extractNews_rank_mem_iff (keep : Candidate → Bool) (mkLink : Candidate → String)
    (page : List Candidate) (i : Nat) :
    (∃ it ∈ extractNews keep mkLink page, it.rank = i + 1) ↔
      ∃ c, (page.take 10)[i]? = some c ∧ keep c = true := by
  rw [extractNews_eq_go]
  have h := extractGo_rank_mem_iff keep mkLink (page.take 10) 1 i
  rw [Nat.add_comm 1 i] at h
  exact h

/-- The output-shape invariant shared by the five news extractors, for any
keep check that requires a non-empty text. -/
theorem extractNews_inv (keep : Candidate → Bool) (mkLink : Candidate → String)
    (hkeep : ∀ c, keep c = true → c.text ≠ "") (cands : List Candidate) :
    (extractNews keep mkLink cands).length ≤ 10 ∧
    (∀ it ∈ extractNews keep mkLink cands, it.title ≠ "" ∧ 1 ≤ it.rank ∧ it.rank ≤ 10) ∧
    (extractNews keep mkLink cands).Pairwise (fun a b => a.rank < b.rank) := by
  rw [extractNews_eq_go]
  refine ⟨?_, ?_, extractGo_ranks_sorted keep mkLink _ 1⟩
  · exact le_trans (extractGo_length keep mkLink _ 1) (List.length_take_le 10 cands)
  · intro it hit
    rcases extractGo_mem keep mkLink _ 1 it hit with ⟨h1, h2, c, hc, hkc, hfields⟩
    have hlen : (cands.take 10).length ≤ 10 := List.length_take_le 10 cands
    refine ⟨?_, h1, by omega⟩
    rw [hfields]
    exact truncTitle_ne_empty c.text (hkeep c hkc)

theorem keep_text_of_pair (c : Candidate) (h : (c.text != "" && c.href != "") = true) :
    c.text ≠ "" := by
  rw [Bool.and_eq_true] at h
  exact bne_iff_ne.mp h.1

theorem keep_text_of_single (c : Candidate) (h : (c.text != "") = true) : c.text ≠ "" :=
  bne_iff_ne.mp h

/-! ### Claims -/

/-- C8: the stored title of an extracted entry is the display text unchanged
when it has at most sixty code points, and exactly its first sixty code points
followed by the three-dot ellipsis marker when it is longer (so a
sixty-one-point title becomes sixty points plus the marker and a sixty-point
title is untouched). -/
theorem claimC8_title_truncation (t : String) :
    (60 < t.length →
      (truncTitle t).data = t.data.take 60 ++ ['.', '.', '.'] ∧
      (truncTitle t).length = 63) ∧
    (t.length ≤ 60 → truncTitle t = t) := by
  constructor
  · intro h
    have hd : (truncTitle t).data = t.data.take 60 ++ ['.', '.', '.'] := by
      unfold truncTitle
      rw [if_pos h, String.data_append]
    refine ⟨hd, ?_⟩
    show (truncTitle t).data.length = 63
    rw [hd]
    have : t.data.length = t.length := rfl
    simp [List.length_take]
    omega
  · intro h
    unfold truncTitle
    rw [if_neg (by omega)]

/-- Witness for C8 at a sixty-one-point and a sixty-point title. -/
theorem claimC8_title_truncation_witness :
    ((truncTitle (String.mk (List.replicate 61 'a'))).data =
        (List.replicate 61 'a').take 60 ++ ['.', '.', '.'] ∧
      (truncTitle (String.mk (List.replicate 61 'a'))).length = 63) ∧
    truncTitle (String.mk (List.replicate 60 'a')) = String.mk (List.replicate 60 'a') :=
  ⟨(claimC8_title_truncation (String.mk (List.replicate 61 'a'))).1 (by decide),
   (claimC8_title_truncation (String.mk (List.replicate 60 'a'))).2 (by decide)⟩

/-- C1: `collect_all_news` always yields a result with all six keys (its `get`
is total); a key whose task settled with an exception maps to the empty
sequence (resp. empty mapping for `indices`); and the value under any key
depends only on that key's own task outcome, so a failure in one category
never alters a sibling's result. -/
theorem claimC1_collect_isolation (o o' : TaskOutcomes) (k : CategoryKey) :
    ((o.outcomeAt k).isOk = false → (collect_all_news o).get k = CatValue.emptyFor k) ∧
    (o.outcomeAt k = o'.outcomeAt k →
      (collect_all_news o).get k = (collect_all_news o').get k) := by
  cases k with
  | economy =>
      cases ho : o.economy <;> cases ho' : o'.economy <;>
        simp_all [TaskOutcomes.outcomeAt, collect_all_news, CollectionResult.get,
          CatValue.emptyFor, Except.map, Except.isOk, Except.toBool]
  | stock =>
      cases ho : o.stock <;> cases ho' : o'.stock <;>
        simp_all [TaskOutcomes.outcomeAt, collect_all_news, CollectionResult.get,
          CatValue.emptyFor, Except.map, Except.isOk, Except.toBool]
  | world_stock =>
      cases ho : o.world_stock <;> cases ho' : o'.world_stock <;>
        simp_all [TaskOutcomes.outcomeAt, collect_all_news, CollectionResult.get,
          CatValue.emptyFor, Except.map, Except.isOk, Except.toBool]
  | commodity =>
      cases ho : o.commodity <;> cases ho' : o'.commodity <;>
        simp_all [TaskOutcomes.outcomeAt, collect_all_news, CollectionResult.get,
          CatValue.emptyFor, Except.map, Except.isOk, Except.toBool]
  | crypto =>
      cases ho : o.crypto <;> cases ho' : o'.crypto <;>
        simp_all [TaskOutcomes.outcomeAt, collect_all_news, CollectionResult.get,
          CatValue.emptyFor, Except.map, Except.isOk, Except.toBool]
  | indices =>
      cases ho : o.indices <;> cases ho' : o'.indices <;>
        simp_all [TaskOutcomes.outcomeAt, collect_all_news, CollectionResult.get,
          CatValue.emptyFor, Except.map, Except.isOk, Except.toBool]

/-- Witness for C1: a failed economy task yields the empty sequence, and the
stock result is unchanged when only the economy outcome differs. -/
theorem claimC1_collect_isolation_witness :
    (collect_all_news ⟨.error (), .ok [], .ok [], .ok [], .ok [], .ok []⟩).get .economy
        = CatValue.emptyFor .economy ∧
    (collect_all_news ⟨.error (), .ok [], .ok [], .ok [], .ok [], .ok []⟩).get .stock
        = (collect_all_news ⟨.ok [], .ok [], .ok [], .ok [], .ok [], .ok []⟩).get .stock :=
  ⟨(claimC1_collect_isolation ⟨.error (), .ok [], .ok [], .ok [], .ok [], .ok []⟩
      ⟨.error (), .ok [], .ok [], .ok [], .ok [], .ok []⟩ .economy).1 (by rfl),
   (claimC1_collect_isolation ⟨.error (), .ok [], .ok [], .ok [], .ok [], .ok []⟩
      ⟨.ok [], .ok [], .ok [], .ok [], .ok [], .ok []⟩ .stock).2 (by rfl)⟩

/-- C2: in every news-category extractor the rank of an emitted item is its
one-based position in the unfiltered first-ten candidate slice (the item's
title is built from the candidate at position `rank - 1`), and on the raw
candidates `[A, "", C]` every extractor yields ranks `[1, 3]`, not `[1, 2]`:
rank assignment precedes the emptiness filtering. -/
theorem claimC2_rank_precedes_filter :
    (∀ page it, it ∈ get_naver_economy_news (some page) →
      ∃ c, (page.take 10)[it.rank - 1]? = some c ∧ it.title = truncTitle c.text) ∧
    (∀ page it, it ∈ get_stock_news (some page) →
      ∃ c, (page.take 10)[it.rank - 1]? = some c ∧ it.title = truncTitle c.text) ∧
    (∀ page it, it ∈ get_world_stock_news (some page) →
      ∃ c, (page.take 10)[it.rank - 1]? = some c ∧ it.title = truncTitle c.text) ∧
    (∀ page it, it ∈ get_commodity_news (some page) →
      ∃ c, (page.take 10)[it.rank - 1]? = some c ∧ it.title = truncTitle c.text) ∧
    (∀ page it, it ∈ get_crypto_news (some page) →
      ∃ c, (page.take 10)[it.rank - 1]? = some c ∧ it.title = truncTitle c.text) ∧
    ((get_naver_economy_news
        (some [⟨"A", "u1"⟩, ⟨"", "u2"⟩, ⟨"C", "u3"⟩])).map (fun it => it.rank) = [1, 3] ∧
     (get_stock_news
        (some [⟨"A", "u1"⟩, ⟨"", "u2"⟩, ⟨"C", "u3"⟩])).map (fun it => it.rank) = [1, 3] ∧
     (get_world_stock_news
        (some [⟨"A", "u1"⟩, ⟨"", "u2"⟩, ⟨"C", "u3"⟩])).map (fun it => it.rank) = [1, 3] ∧
     (get_commodity_news
        (some [⟨"A", "u1"⟩, ⟨"", "u2"⟩, ⟨"C", "u3"⟩])).map (fun it => it.rank) = [1, 3] ∧
     (get_crypto_news
        (some [⟨"A", "u1"⟩, ⟨"", "u2"⟩, ⟨"C", "u3"⟩])).map (fun it => it.rank) = [1, 3]) := by
  refine ⟨?_, ?_, ?_, ?_, ?_, by decide⟩
  · intro page it h
    rcases extractNews_rank_source (fun c => c.text != "" && c.href != "")
      (fun c => c.href) page it h with ⟨c, hc, _, ht, _⟩
    exact ⟨c, hc, ht⟩
  · intro page it h
    rcases extractNews_rank_source (fun c => c.text != "")
      (fun c => "https://finance.naver.com" ++ c.href) page it h with ⟨c, hc, _, ht, _⟩
    exact ⟨c, hc, ht⟩
  · intro page it h
    rcases extractNews_rank_source (fun c => c.text != "")
      (fun c =>
        if str_startswith c.href "http" then c.href
        else "https://finance.naver.com" ++ c.href) page it h with ⟨c, hc, _, ht, _⟩
    exact ⟨c, hc, ht⟩
  · intro page it h
    rcases extractNews_rank_source (fun c => c.text != "")
      (fun c => c.href) page it h with ⟨c, hc, _, ht, _⟩
    exact ⟨c, hc, ht⟩
  · intro page it h
    rcases extractNews_rank_source (fun c => c.text != "")
      (fun c => c.href) page it h with ⟨c, hc, _, ht, _⟩
    exact ⟨c, hc, ht⟩

/-- Witness for C2 applying the economy clause at a one-candidate page. -/
theorem claimC2_rank_precedes_filter_witness :
    ∃ c, ([Candidate.mk "A" "u1"].take 10)[(1 : Nat) - 1]? = some c ∧
      "A" = truncTitle c.text :=
  claimC2_rank_precedes_filter.1 [Candidate.mk "A" "u1"]
    (RankedItem.mk 1 "A" "u1") (by decide)

/-- C4 counterexample: the commodity extractor keeps a candidate whose link is
empty (its check is `if title:` only), so an item with an empty link reaches
the output, contradicting the claimed "kept exactly when both title and link
are non-empty". -/
theorem claimC4_counterexample :
    ∃ it ∈ get_commodity_news (some [Candidate.mk "A" ""]), it.link = "" := by decide

/-- C4 amended: only the economy extractor keeps a candidate exactly when both
its text and its href are non-empty; the stock, world-stock, commodity and
crypto extractors keep a candidate exactly when its text is non-empty,
regardless of its href. -/
theorem claimC4_keep_conditions :
    (∀ page i c, (page.take 10)[i]? = some c →
      ((∃ it ∈ get_naver_economy_news (some page), it.rank = i + 1) ↔
        (c.text ≠ "" ∧ c.href ≠ ""))) ∧
    (∀ page i c, (page.take 10)[i]? = some c →
      ((∃ it ∈ get_stock_news (some page), it.rank = i + 1) ↔ c.text ≠ "")) ∧
    (∀ page i c, (page.take 10)[i]? = some c →
      ((∃ it ∈ get_world_stock_news (some page), it.rank = i + 1) ↔ c.text ≠ "")) ∧
    (∀ page i c, (page.take 10)[i]? = some c →
      ((∃ it ∈ get_commodity_news (some page), it.rank = i + 1) ↔ c.text ≠ "")) ∧
    (∀ page i c, (page.take 10)[i]? = some c →
      ((∃ it ∈ get_crypto_news (some page), it.rank = i + 1) ↔ c.text ≠ "")) := by
  refine ⟨?_, ?_, ?_, ?_, ?_⟩
  · intro page i c hc
    rw [show get_naver_economy_news (some page)
          = extractNews (fun c => c.text != "" && c.href != "") (fun c => c.href) page
        from rfl,
      extractNews_rank_mem_iff]
    simp [hc, Bool.and_eq_true, bne_iff_ne]
  · intro page i c hc
    rw [show get_stock_news (some page)
          = extractNews (fun c => c.text != "")
              (fun c => "https://finance.naver.com" ++ c.href) page
        from rfl,
      extractNews_rank_mem_iff]
    simp [hc, bne_iff_ne]
  · intro page i c hc
    rw [show get_world_stock_news (some page)
          = extractNews (fun c => c.text != "")
              (fun c =>
                if str_startswith c.href "http" then c.href
                else "https://finance.naver.com" ++ c.href) page
        from rfl,
      extractNews_rank_mem_iff]
    simp [hc, bne_iff_ne]
  · intro page i c hc
    rw [show get_commodity_news (some page)
          = extractNews (fun c => c.text != "") (fun c => c.href) page
        from rfl,
      extractNews_rank_mem_iff]
    simp [hc, bne_iff_ne]
  · intro page i c hc
    rw [show get_crypto_news (some page)
          = extractNews (fun c => c.text != "") (fun c => c.href) page
        from rfl,
      extractNews_rank_mem_iff]
    simp [hc, bne_iff_ne]

/-- Witness for C4 amended: a kept economy candidate and a kept commodity
candidate with an empty href. -/
theorem claimC4_keep_conditions_witness :
    (∃ it ∈ get_naver_economy_news (some [Candidate.mk "A" "u1"]), it.rank = 0 + 1) ∧
    (∃ it ∈ get_commodity_news (some [Candidate.mk "A" ""]), it.rank = 0 + 1) :=
  ⟨(claimC4_keep_conditions.1 [Candidate.mk "A" "u1"] 0 (Candidate.mk "A" "u1")
      (by decide)).mpr (by decide),
   (claimC4_keep_conditions.2.2.2.1 [Candidate.mk "A" ""] 0 (Candidate.mk "A" "")
      (by decide)).mpr (by decide)⟩

/-- C5 counterexample: the economy extractor passes a relative `href` through
unchanged, so a produced item's link need not be an absolute URL. -/
theorem claimC5_counterexample :
    (get_naver_economy_news (some [Candidate.mk "A" "/news/001"])).map
        (fun it => it.link) = ["/news/001"] ∧
    str_startswith "/news/001" "http" = false := by decide

/-- C5 amended: only the stock and world-stock extractors resolve links
against the source origin — every item they emit has a link starting with
`http`; the economy, commodity and crypto extractors copy the raw `href` into
the item unchanged, so a relative candidate link leaves the extractor
relative. -/
theorem claimC5_link_resolution :
    (∀ page it, it ∈ get_stock_news (some page) →
      str_startswith it.link "http" = true) ∧
    (∀ page it, it ∈ get_world_stock_news (some page) →
      str_startswith it.link "http" = true) ∧
    (∀ page it, it ∈ get_naver_economy_news (some page) →
      ∃ c, (page.take 10)[it.rank - 1]? = some c ∧ it.link = c.href) ∧
    (∀ page it, it ∈ get_commodity_news (some page) →
      ∃ c, (page.take 10)[it.rank - 1]? = some c ∧ it.link = c.href) ∧
    (∀ page it, it ∈ get_crypto_news (some page) →
      ∃ c, (page.take 10)[it.rank - 1]? = some c ∧ it.link = c.href) := by
  have hp : "http".data <+: "https://finance.naver.com".data :=
    List.isPrefixOf_iff_prefix.mp (by decide)
  refine ⟨?_, ?_, ?_, ?_, ?_⟩
  · intro page it h
    rcases extractNews_rank_source (fun c => c.text != "")
      (fun c => "https://finance.naver.com" ++ c.href) page it h with ⟨c, _, _, _, hlink⟩
    rw [hlink]
    exact str_startswith_append "http" "https://finance.naver.com" c.href hp
  · intro page it h
    rcases extractNews_rank_source (fun c => c.text != "")
      (fun c =>
        if str_startswith c.href "http" then c.href
        else "https://finance.naver.com" ++ c.href) page it h with ⟨c, _, _, _, hlink⟩
    rw [hlink]
    by_cases hb : str_startswith c.href "http" = true
    · rw [if_pos hb]
      exact hb
    · rw [if_neg hb]
      exact str_startswith_append "http" "https://finance.naver.com" c.href hp
  · intro page it h
    rcases extractNews_rank_source (fun c => c.text != "" && c.href != "")
      (fun c => c.href) page it h with ⟨c, hc, _, _, hlink⟩
    exact ⟨c, hc, hlink⟩
  · intro page it h
    rcases extractNews_rank_source (fun c => c.text != "")
      (fun c => c.href) page it h with ⟨c, hc, _, _, hlink⟩
    exact ⟨c, hc, hlink⟩
  · intro page it h
    rcases extractNews_rank_source (fun c => c.text != "")
      (fun c => c.href) page it h with ⟨c, hc, _, _, hlink⟩
    exact ⟨c, hc, hlink⟩

/-- Witness for C5 amended at one stock item and one commodity item. -/
theorem claimC5_link_resolution_witness :
    str_startswith (RankedItem.mk 1 "A" "https://finance.naver.com/x").link "http" = true ∧
    ∃ c, ([Candidate.mk "A" "/rel"].take 10)[(1 : Nat) - 1]? = some c ∧
      (RankedItem.mk 1 "A" "/rel").link = c.href :=
  ⟨claimC5_link_resolution.1 [Candidate.mk "A" "/x"]
      (RankedItem.mk 1 "A" "https://finance.naver.com/x") (by decide),
   claimC5_link_resolution.2.2.2.1 [Candidate.mk "A" "/rel"]
      (RankedItem.mk 1 "A" "/rel") (by decide)⟩

/-- C10: on any input (failed fetch included) each of the five news-category
extractors returns at most ten items, every item has a non-empty title and a
rank between one and ten, and the ranks are strictly increasing in output
order. -/
theorem claimC10_extractor_invariants :
    (∀ input, (get_naver_economy_news input).length ≤ 10 ∧
      (∀ it ∈ get_naver_economy_news input, it.title ≠ "" ∧ 1 ≤ it.rank ∧ it.rank ≤ 10) ∧
      (get_naver_economy_news input).Pairwise (fun a b => a.rank < b.rank)) ∧
    (∀ input, (get_stock_news input).length ≤ 10 ∧
      (∀ it ∈ get_stock_news input, it.title ≠ "" ∧ 1 ≤ it.rank ∧ it.rank ≤ 10) ∧
      (get_stock_news input).Pairwise (fun a b => a.rank < b.rank)) ∧
    (∀ input, (get_world_stock_news input).length ≤ 10 ∧
      (∀ it ∈ get_world_stock_news input, it.title ≠ "" ∧ 1 ≤ it.rank ∧ it.rank ≤ 10) ∧
      (get_world_stock_news input).Pairwise (fun a b => a.rank < b.rank)) ∧
    (∀ input, (get_commodity_news input).length ≤ 10 ∧
      (∀ it ∈ get_commodity_news input, it.title ≠ "" ∧ 1 ≤ it.rank ∧ it.rank ≤ 10) ∧
      (get_commodity_news input).Pairwise (fun a b => a.rank < b.rank)) ∧
    (∀ input, (get_crypto_news input).length ≤ 10 ∧
      (∀ it ∈ get_crypto_news input, it.title ≠ "" ∧ 1 ≤ it.rank ∧ it.rank ≤ 10) ∧
      (get_crypto_news input).Pairwise (fun a b => a.rank < b.rank)) := by
  refine ⟨?_, ?_, ?_, ?_, ?_⟩ <;>
    · intro input
      cases input with
      | none => exact ⟨by decide, by decide, List.Pairwise.nil⟩
      | some page =>
          first
          | exact extractNews_inv (fun c => c.text != "" && c.href != "")
              (fun c => c.href) keep_text_of_pair page
          | exact extractNews_inv (fun c => c.text != "")
              (fun c => "https://finance.naver.com" ++ c.href) keep_text_of_single page
          | exact extractNews_inv (fun c => c.text != "")
              (fun c =>
                if str_startswith c.href "http" then c.href
                else "https://finance.naver.com" ++ c.href) keep_text_of_single page
          | exact extractNews_inv (fun c => c.text != "")
              (fun c => c.href) keep_text_of_single page

/-- Witness for C10 applying the economy clause at a one-candidate page and
its single output item. -/
theorem claimC10_extractor_invariants_witness :
    (get_naver_economy_news (some [Candidate.mk "A" "u1"])).length ≤ 10 ∧
    ((RankedItem.mk 1 "A" "u1").title ≠ "" ∧
      1 ≤ (RankedItem.mk 1 "A" "u1").rank ∧ (RankedItem.mk 1 "A" "u1").rank ≤ 10) :=
  ⟨(claimC10_extractor_invariants.1 (some [Candidate.mk "A" "u1"])).1,
   (claimC10_extractor_invariants.1 (some [Candidate.mk "A" "u1"])).2.1
      (RankedItem.mk 1 "A" "u1") (by decide)⟩

/-- One hyperlinked line of a detail message. -/
def detailLine (news : RankedItem) : String :=
  toString news.rank ++ ". <a href=\x27" ++ news.link ++ "\x27>" ++ news.title ++ "</a>\n\n"

/-- C6: `format_detailed_message` returns `none` exactly when the category's
sequence is empty; otherwise it returns the titled block followed by one
hyperlinked rank-dot-title line per item of the first ten, i.e. exactly
`min 10 (length)` item lines. -/
theorem claimC6_format_detail (nd : CollectionResult) (cat : NewsCategory) (title : String) :
    (format_detailed_message nd cat title = none ↔ nd.newsOf cat = []) ∧
    (nd.newsOf cat ≠ [] →
      format_detailed_message nd cat title =
        some ("<b>" ++ title ++ "</b>\n\n" ++
          String.join (((nd.newsOf cat).take 10).map detailLine)) ∧
      ((nd.newsOf cat).take 10).length = min 10 (nd.newsOf cat).length) := by
  have hfun : (fun (m : String) (news : RankedItem) =>
      m ++ toString news.rank ++ ". <a href=\x27" ++ news.link ++ "\x27>"
        ++ news.title ++ "</a>\n\n")
      = fun (m : String) (news : RankedItem) => m ++ detailLine news := by
    funext m news
    simp [detailLine, str_append_assoc]
  constructor
  · unfold format_detailed_message
    by_cases h : (nd.newsOf cat).isEmpty
    · simp [h, List.isEmpty_iff.mp h]
    · have h' : ¬(nd.newsOf cat = []) := fun he => h (List.isEmpty_iff.mpr he)
      simp [h, h']
  · intro hne
    have hF : (nd.newsOf cat).isEmpty = false := by
      rw [← Bool.not_eq_true, List.isEmpty_iff]
      exact hne
    constructor
    · simp only [format_detailed_message, hF, Bool.false_eq_true, if_false]
      rw [hfun, strFoldl_map detailLine]
    · rw [List.length_take]

/-- Witness for C6 at a one-item economy result. -/
theorem claimC6_format_detail_witness :
    format_detailed_message
        (CollectionResult.mk [RankedItem.mk 1 "A" "u1"] [] [] [] [] [])
        NewsCategory.economy "T" =
      some ("<b>" ++ "T" ++ "</b>\n\n" ++
        String.join ((([RankedItem.mk 1 "A" "u1"]).take 10).map detailLine)) ∧
    (([RankedItem.mk 1 "A" "u1"]).take 10).length = min 10 ([RankedItem.mk 1 "A" "u1"]).length :=
  (claimC6_format_detail
      (CollectionResult.mk [RankedItem.mk 1 "A" "u1"] [] [] [] [] [])
      NewsCategory.economy "T").2 (by decide)

/-- The fixed summary header up to and including the blank line after the
first separator. -/
def summaryHeader (today : String) : String :=
  "\n📰 <b>일일 경제 뉴스 TOP10</b>\n📅 " ++ today
    ++ "\n\n━━━━━━━━━━━━━━━━━━━━━━\n\n"

/-- The fixed summary footer. -/
def summaryFooter : String :=
  "━━━━━━━━━━━━━━━━━━━━━━\n🤖 Powered by GitHub Actions\n"

/-- One name-value line of the market-indices block. -/
def indexLine (p : String × String) : String :=
  "  • " ++ p.1 ++ ": " ++ p.2 ++ "\n"

/-- The market-indices block of the summary (emitted only when the mapping is
non-empty). -/
def indicesBlock (l : List (String × String)) : String :=
  "📊 <b>주요 시장 지수</b>\n" ++ String.join (l.map indexLine)
    ++ "\n━━━━━━━━━━━━━━━━━━━━━━\n\n"

/-- One rank-dot-title line of a summary category block. -/
def summaryItemLine (news : RankedItem) : String :=
  toString news.rank ++ ". " ++ news.title ++ "\n"

/-- One titled category block of the summary: at most the first five items. -/
def categoryBlock (title : String) (items : List RankedItem) : String :=
  "<b>" ++ title ++ "</b>\n\n" ++ String.join ((items.take 5).map summaryItemLine) ++ "\n"

/-- C7: the summary message is exactly the fixed header with the run date,
then the indices block only when the indices mapping is non-empty, then for
each of the five news categories in declared order a titled block of at most
the first five items only when that category is non-empty, then the footer;
on an all-empty result it is exactly the header followed by the footer. -/
theorem claimC7_format_summary (today : String) (nd : CollectionResult) :
    format_news_message today nd =
      summaryHeader today
        ++ (if nd.indices.isEmpty then "" else indicesBlock nd.indices)
        ++ String.join (summaryCategories.map fun kt =>
            if (nd.newsOf kt.1).isEmpty then "" else categoryBlock kt.2 (nd.newsOf kt.1))
        ++ summaryFooter ∧
    (nd = CollectionResult.mk [] [] [] [] [] [] →
      format_news_message today nd = summaryHeader today ++ summaryFooter) := by
  have hitem : (fun (m : String) (news : RankedItem) =>
      m ++ toString news.rank ++ ". " ++ news.title ++ "\n")
      = fun (m : String) (news : RankedItem) => m ++ summaryItemLine news := by
    funext m news
    simp [summaryItemLine, str_append_assoc]
  have hcat : (fun (m : String) (kt : NewsCategory × String) =>
      if (nd.newsOf kt.1).isEmpty then m
      else
        (((nd.newsOf kt.1).take 5).foldl
          (fun m news => m ++ toString news.rank ++ ". " ++ news.title ++ "\n")
          (m ++ "<b>" ++ kt.2 ++ "</b>\n\n"))
        ++ "\n")
      = fun (m : String) (kt : NewsCategory × String) =>
          m ++ (if (nd.newsOf kt.1).isEmpty then "" else categoryBlock kt.2 (nd.newsOf kt.1)) := by
    funext m kt
    by_cases hk : (nd.newsOf kt.1).isEmpty
    · simp [hk, str_append_empty]
    · rw [if_neg hk, if_neg hk, hitem, strFoldl_map summaryItemLine]
      simp [categoryBlock, str_append_assoc]
  have hidx : (fun (m : String) (p : String × String) =>
      m ++ "  • " ++ p.1 ++ ": " ++ p.2 ++ "\n")
      = fun (m : String) (p : String × String) => m ++ indexLine p := by
    funext m p
    simp [indexLine, str_append_assoc]
  have main : format_news_message today nd =
      summaryHeader today
        ++ (if nd.indices.isEmpty then "" else indicesBlock nd.indices)
        ++ String.join (summaryCategories.map fun kt =>
            if (nd.newsOf kt.1).isEmpty then "" else categoryBlock kt.2 (nd.newsOf kt.1))
        ++ summaryFooter := by
    by_cases hi : nd.indices.isEmpty
    · simp only [format_news_message, hi, if_true, hcat,
        strFoldl_map (fun kt : NewsCategory × String =>
          if (nd.newsOf kt.1).isEmpty then "" else categoryBlock kt.2 (nd.newsOf kt.1))
          summaryCategories]
      simp only [summaryHeader, summaryFooter, str_append_assoc, str_append_empty,
        str_empty_append]
    · simp only [format_news_message, hi, if_false, hidx,
        strFoldl_map indexLine nd.indices, hcat,
        strFoldl_map (fun kt : NewsCategory × String =>
          if (nd.newsOf kt.1).isEmpty then "" else categoryBlock kt.2 (nd.newsOf kt.1))
          summaryCategories]
      simp only [Bool.false_eq_true, if_false, summaryHeader, indicesBlock,
        summaryFooter, str_append_assoc]
  refine ⟨main, fun h => ?_⟩
  rw [main, h]
  simp [summaryCategories, CollectionResult.newsOf, strJoin_cons, strJoin_nil,
    str_empty_append, str_append_empty]

/-- Witness for C7's all-empty clause at the empty collection result. -/
theorem claimC7_format_summary_witness :
    format_news_message "d" (CollectionResult.mk [] [] [] [] [] []) =
      summaryHeader "d" ++ summaryFooter :=
  (claimC7_format_summary "d" (CollectionResult.mk [] [] [] [] [] [])).2 rfl

/-- The per-category trace block of the dispatch loop: nothing for a `None`
detail message, otherwise the rate-limit sleep followed by the attempted
send. -/
def detailBlock (news_data : CollectionResult) (detailOk : NewsCategory → Bool)
    (kt : NewsCategory × String) : List Action :=
  match format_detailed_message news_data kt.1 kt.2 with
  | some m => [Action.sleep, Action.sendA m (detailOk kt.1)]
  | none => []

theorem attemptedBodies_append (a b : List Action) :
    attemptedBodies (a ++ b) = attemptedBodies a ++ attemptedBodies b :=
  List.filterMap_append a b _

theorem attemptedBodies_blocks (news_data : CollectionResult)
    (detailOk : NewsCategory → Bool) (l : List (NewsCategory × String)) :
    attemptedBodies ((l.map (detailBlock news_data detailOk)).flatten) =
      l.filterMap fun kt => format_detailed_message news_data kt.1 kt.2 := by
  induction l with
  | nil => rfl
  | cons kt l ih =>
      rw [List.map_cons, List.flatten_cons, attemptedBodies_append, ih,
        List.filterMap_cons]
      cases h : format_detailed_message news_data kt.1 kt.2 <;>
        simp [detailBlock, attemptedBodies, h]

/-- C3: `send_news` attempts the summary first; when that send fails the
failure propagates (`Except.error`) and the trace holds only the failed
summary attempt — no sleep, no detail attempt.  When the summary succeeds,
the trace is the summary attempt followed, for each of the five categories in
declared order with a non-`None` detail message, by the fixed delay and the
attempted detail send; the sequence of attempted bodies is the same whatever
the individual detail outcomes are, so one detail failure never prevents the
remaining sends from being attempted in order. -/
theorem claimC3_send_sequence (detailOk detailOk' : NewsCategory → Bool)
    (today : String) (news_data : CollectionResult) :
    (send_news false detailOk today news_data =
      Except.error [Action.sendA (format_news_message today news_data) false]) ∧
    (send_news true detailOk today news_data =
      Except.ok (Action.sendA (format_news_message today news_data) true ::
        (detailCategories.map (detailBlock news_data detailOk)).flatten)) ∧
    (∀ t t', send_news true detailOk today news_data = Except.ok t →
      send_news true detailOk' today news_data = Except.ok t' →
      attemptedBodies t = attemptedBodies t' ∧
      attemptedBodies t = format_news_message today news_data ::
        detailCategories.filterMap fun kt => format_detailed_message news_data kt.1 kt.2) := by
  have hstep : ∀ dk : NewsCategory → Bool,
      (fun (trace : List Action) (kt : NewsCategory × String) =>
        match format_detailed_message news_data kt.1 kt.2 with
        | some m => trace ++ [Action.sleep, Action.sendA m (dk kt.1)]
        | none => trace)
      = fun trace kt => trace ++ detailBlock news_data dk kt := by
    intro dk
    funext trace kt
    cases h : format_detailed_message news_data kt.1 kt.2 <;> simp [detailBlock, h]
  have hok : ∀ dk : NewsCategory → Bool,
      send_news true dk today news_data =
        Except.ok (Action.sendA (format_news_message today news_data) true ::
          (detailCategories.map (detailBlock news_data dk)).flatten) := by
    intro dk
    show Except.ok _ = _
    rw [hstep dk, listFoldl_append (detailBlock news_data dk) detailCategories]
    rfl
  have hbodies : ∀ dk : NewsCategory → Bool,
      attemptedBodies (Action.sendA (format_news_message today news_data) true ::
          (detailCategories.map (detailBlock news_data dk)).flatten) =
        format_news_message today news_data ::
          detailCategories.filterMap (fun kt => format_detailed_message news_data kt.1 kt.2) := by
    intro dk
    have h1 : attemptedBodies (Action.sendA (format_news_message today news_data) true ::
        (detailCategories.map (detailBlock news_data dk)).flatten)
        = format_news_message today news_data ::
          attemptedBodies ((detailCategories.map (detailBlock news_data dk)).flatten) := rfl
    rw [h1, attemptedBodies_blocks]
  refine ⟨rfl, hok detailOk, fun t t' ht ht' => ?_⟩
  have hB := Except.ok.inj ((hok detailOk).symm.trans ht)
  have hB' := Except.ok.inj ((hok detailOk').symm.trans ht')
  subst hB
  subst hB'
  exact ⟨(hbodies detailOk).trans (hbodies detailOk').symm, hbodies detailOk⟩

/-- Witness for C3's third clause at the empty collection result: the only
attempted body is the summary, independent of detail outcomes. -/
theorem claimC3_send_sequence_witness :
    attemptedBodies [Action.sendA (format_news_message "d" (CollectionResult.mk [] [] [] [] [] [])) true] =
      attemptedBodies [Action.sendA (format_news_message "d" (CollectionResult.mk [] [] [] [] [] [])) true] ∧
    attemptedBodies [Action.sendA (format_news_message "d" (CollectionResult.mk [] [] [] [] [] [])) true] =
      format_news_message "d" (CollectionResult.mk [] [] [] [] [] []) ::
        detailCategories.filterMap fun kt =>
          format_detailed_message (CollectionResult.mk [] [] [] [] [] []) kt.1 kt.2 :=
  (claimC3_send_sequence (fun _ => true) (fun _ => false) "d"
      (CollectionResult.mk [] [] [] [] [] [])).2.2 _ _ rfl rfl

theorem dictInsert_length (d : List (String × String)) (k v : String) :
    (dictInsert d k v).length ≤ d.length + 1 := by
  unfold dictInsert
  by_cases h : d.any (fun p => p.1 == k)
  · rw [if_pos h, List.length_map]
    omega
  · rw [if_neg h, List.length_append]
    simp

theorem dictInsert_keys_mono (d : List (String × String)) (k v k0 : String)
    (h : k0 ∈ d.map Prod.fst) : k0 ∈ (dictInsert d k v).map Prod.fst := by
  unfold dictInsert
  by_cases hp : d.any (fun p => p.1 == k)
  · rw [if_pos hp]
    have hkeys : (d.map fun p => if p.1 == k then (k, v) else p).map Prod.fst
        = d.map Prod.fst := by
      rw [List.map_map]
      apply List.map_congr_left
      intro p _
      by_cases hb : (p.1 == k) = true
      · show Prod.fst (if p.1 == k then (k, v) else p) = p.1
        rw [if_pos hb]
        exact (eq_of_beq hb).symm
      · show Prod.fst (if p.1 == k then (k, v) else p) = p.1
        rw [if_neg hb]
    rw [hkeys]
    exact h
  · rw [if_neg hp, List.map_append]
    exact List.mem_append_left _ h

theorem worldRowStep_length (ind : List (String × String)) (row : WorldRow) :
    (worldRowStep ind row).length ≤ ind.length + 1 := by
  obtain ⟨nm, pt⟩ := row
  cases nm with
  | none => cases pt <;> exact Nat.le_succ ind.length
  | some n =>
      cases pt with
      | none => exact Nat.le_succ ind.length
      | some v => exact dictInsert_length ind n v

theorem worldRowStep_keys_mono (ind : List (String × String)) (row : WorldRow)
    (k0 : String) (h : k0 ∈ ind.map Prod.fst) :
    k0 ∈ (worldRowStep ind row).map Prod.fst := by
  obtain ⟨nm, pt⟩ := row
  cases nm with
  | none => cases pt <;> exact h
  | some n =>
      cases pt with
      | none => exact h
      | some v => exact dictInsert_keys_mono ind n v k0 h

theorem foldl_worldRowStep_length (rows : List WorldRow) :
    ∀ ind : List (String × String),
      (rows.foldl worldRowStep ind).length ≤ ind.length + rows.length := by
  induction rows with
  | nil => intro ind; simp
  | cons row rows ih =>
      intro ind
      have h1 := ih (worldRowStep ind row)
      have h2 := worldRowStep_length ind row
      simp only [List.foldl_cons, List.length_cons]
      omega

theorem foldl_worldRowStep_keys_mono (rows : List WorldRow) :
    ∀ (ind : List (String × String)) (k0 : String),
      k0 ∈ ind.map Prod.fst → k0 ∈ (rows.foldl worldRowStep ind).map Prod.fst := by
  induction rows with
  | nil => intro ind k0 h; exact h
  | cons row rows ih =>
      intro ind k0 h
      exact ih (worldRowStep ind row) k0 (worldRowStep_keys_mono ind row k0 h)

/-- Splitting `get_market_indices`: the world block folds its first five rows
onto whatever the domestic block produced. -/
theorem get_market_indices_split (dom : Option DomesticPage) (rows : List WorldRow) :
    get_market_indices dom (some rows) =
      (rows.take 5).foldl worldRowStep (get_market_indices dom none) := rfl

/-- C9: the indices extractor merges at most two named domestic values and at
most five world rows into one flat name-to-value mapping (at most seven
entries in total); a failed domestic fetch is indistinguishable from a
domestic page with neither selector matching, a failed world fetch is
indistinguishable from a world page with no rows, and every key contributed
by the domestic fetch is still present whatever the world fetch does — a
failure in one fetch never blanks the other's entries. -/
theorem claimC9_market_indices (dom : Option DomesticPage) (w : Option (List WorldRow)) :
    (get_market_indices dom none).length ≤ 2 ∧
    (get_market_indices none w).length ≤ 5 ∧
    (get_market_indices dom w).length ≤ 7 ∧
    get_market_indices none w = get_market_indices (some (DomesticPage.mk none none)) w ∧
    get_market_indices dom none = get_market_indices dom (some []) ∧
    (∀ k, k ∈ (get_market_indices dom none).map Prod.fst →
      k ∈ (get_market_indices dom w).map Prod.fst) := by
  have hdom2 : (get_market_indices dom none).length ≤ 2 := by
    cases dom with
    | none => exact Nat.zero_le 2
    | some page =>
        cases hk : page.kospiNow with
        | none =>
            cases hq : page.kosdaqNow with
            | none => simp [get_market_indices, hk, hq]
            | some v =>
                simp only [get_market_indices, hk, hq]
                have h1 := dictInsert_length [] "KOSDAQ" v
                simp only [List.length_nil] at h1
                omega
        | some v =>
            cases hq : page.kosdaqNow with
            | none =>
                simp only [get_market_indices, hk, hq]
                have h1 := dictInsert_length [] "KOSPI" v
                simp only [List.length_nil] at h1
                omega
            | some v2 =>
                simp only [get_market_indices, hk, hq]
                have h1 := dictInsert_length [] "KOSPI" v
                have h2 := dictInsert_length (dictInsert [] "KOSPI" v) "KOSDAQ" v2
                simp only [List.length_nil] at h1
                omega
  refine ⟨hdom2, ?_, ?_, ?_, ?_, ?_⟩
  · cases w with
    | none => exact Nat.zero_le 5
    | some rows =>
        rw [get_market_indices_split]
        have h1 := foldl_worldRowStep_length (rows.take 5) (get_market_indices none none)
        have h2 := List.length_take_le 5 rows
        have h0 : (get_market_indices none none).length = 0 := rfl
        omega
  · cases w with
    | none => omega
    | some rows =>
        rw [get_market_indices_split]
        have h1 := foldl_worldRowStep_length (rows.take 5) (get_market_indices dom none)
        have h2 := List.length_take_le 5 rows
        omega
  · cases w <;> rfl
  · rfl
  · intro k hk
    cases w with
    | none => exact hk
    | some rows =>
        rw [get_market_indices_split]
        exact foldl_worldRowStep_keys_mono (rows.take 5) (get_market_indices dom none) k hk

/-- Witness for C9: a domestic KOSPI entry survives a successful world fetch
that adds a Dow row. -/
theorem claimC9_market_indices_witness :
    "KOSPI" ∈ (get_market_indices (some (DomesticPage.mk (some "2500.00") none))
      (some [WorldRow.mk (some "Dow") (some "39000")])).map Prod.fst :=
  (claimC9_market_indices (some (DomesticPage.mk (some "2500.00") none))
      (some [WorldRow.mk (some "Dow") (some "39000")])).2.2.2.2.2 "KOSPI" (by decide)

end DailyNewsBot
